import Mathlib

/-!
Shallow embedding of the bf2c pipeline of this repository
(src/bf2c/mod.rs and src/bf2c/localop.rs), together with proofs about the
claims on the local optimiser, the tokenizer and the emitter.

Modelling conventions:
* Rust `i32` values (offsets, deltas, I/O counts, bracket depth) are
  modelled as `Int` (or `Nat` where the code keeps them non-negative).
  None of the claims exercises 2^31-sized inputs, and in debug builds the
  Rust code would panic on overflow rather than wrap, so unbounded
  integers are the faithful model of the exercised behaviour.
* `HashMap<i32, i32>` is modelled as an association list sorted strictly
  by key (`Changes`).  A sorted list is a canonical representative of a
  finite map, so Lean equality of `Changes` coincides with Rust `HashMap`
  equality.  Likewise `HashSet<(i32, i32)>` is modelled as a sorted list.
* `Vec<Stmt>` working lists are kept in *reversed* order inside the
  optimiser state (head = last pushed element), mirroring `push`/`last_mut`
  with `::` and head patterns; they are reversed back when a loop body is
  classified and when the final `Prog` is produced.
-/

/-- The eight instruction symbols (`BfSymbol` in src/bf2c/mod.rs). -/
inductive BfSymbol where
  | Left
  | Right
  | Plus
  | Minus
  | Period
  | Comma
  | OpenBracket
  | CloseBracket
  deriving DecidableEq, Repr

/-- Association list sorted strictly by key: canonical model of
`HashMap<i32, i32>`. -/
abbrev Changes := List (Int × Int)

/-- Lookup (`HashMap::get`). -/
def getC : Changes → Int → Option Int
  | [], _ => none
  | (k', v') :: rest, k => if k = k' then some v' else getC rest k

/-- Insert/overwrite (`HashMap::insert`), keeping the list sorted. -/
def setC : Changes → Int → Int → Changes
  | [], k, v => [(k, v)]
  | (k', v') :: rest, k, v =>
    if k < k' then (k, v) :: (k', v') :: rest
    else if k = k' then (k, v) :: rest
    else (k', v') :: setC rest k v

/-- Remove a key (`HashMap::remove`, result of the map only). -/
def eraseC : Changes → Int → Changes
  | [], _ => []
  | (k', v') :: rest, k => if k = k' then rest else (k', v') :: eraseC rest k

/-- Statement tree (`Stmt` in src/bf2c/localop.rs).  `Loop` carries the
body's statement list (the Rust `Prog::Vec` newtype unwrapped). -/
inductive Stmt where
  | Action (offset : Int) (changes : Changes)
  | Output (n : Int)
  | Input (n : Int)
  | Loop (body : List Stmt)
  | ZeroLoop
  | ScanLoop (dir : Int)
  | MultiplicationLoop (decrement : Nat) (targets : List (Int × Int))

/-- `Prog` newtype (`Prog::Vec` in src/bf2c/localop.rs). -/
inductive Prog where
  | Vec (stmts : List Stmt)

/-- Add `changes1`, each key shifted by `off`, into the combined map `m`
with `*changes.entry(off + k).or_insert(0) += v` (zero results remain as
entries). -/
def mergeShift (m : Changes) (off : Int) (changes1 : Changes) : Changes :=
  changes1.foldl
    (fun m kv => setC m (off + kv.1) ((getC m (off + kv.1)).getD 0 + kv.2)) m

/-- The Rust source folds with an `Option` accumulator and `and_then`, so
a non-`Action` statement turns the accumulator to `None` for good; the
equivalent early-return recursion. -/
def foldBodyAux : List Stmt → Int × Changes → Option (Int × Changes)
  | [], oc => some oc
  | Stmt.Action offset1 changes1 :: rest, oc =>
    foldBodyAux rest (oc.1 + offset1, mergeShift oc.2 oc.1 changes1)
  | _ :: _, _ => none

/-- The fold of the multiplication-loop classification
(src/bf2c/localop.rs lines 100-118): accumulate a running pointer offset
and a combined changes map starting from `(0, {})`. -/
def foldBody (body : List Stmt) : Option (Int × Changes) :=
  foldBodyAux body (0, [])

/-- The multiplication-loop attempt of the classification
(src/bf2c/localop.rs lines 99-134): fold the body; on success remove the
offset-0 entry, keep it only when it is odd (`decrement % 2 != 0`) and the
net offset is 0, negate-and-truncate it to a byte (`-decrement as u8`),
and keep the nonzero remaining entries as targets; otherwise fall back to
`Loop(body)`. -/
def multFold (body : List Stmt) : Stmt :=
  match foldBody body with
  | none => Stmt.Loop body
  | some (offset, changes) =>
    match getC changes 0 with
    | none => Stmt.Loop body
    | some decrement =>
      if decrement % 2 ≠ 0 ∧ offset = 0 then
        Stmt.MultiplicationLoop ((-decrement).emod 256).toNat
          ((eraseC changes 0).filter (fun kv => kv.2 ≠ 0))
      else Stmt.Loop body

/-- The classification applied at `CloseBracket`
(src/bf2c/localop.rs lines 92-135): scan-loop pattern first
(`[Action(dir @ (1 | -1), changes)] if changes.is_empty()`), then the
multiplication-loop fold, falling back to a generic `Loop`. -/
def classify (body : List Stmt) : Stmt :=
  match body with
  | [Stmt.Action d []] =>
    if d = 1 ∨ d = -1 then Stmt.ScanLoop d else multFold body
  | _ => multFold body

/-- Optimiser state: the current statement list (reversed: head = last
pushed) and the stack of outer lists (`loop_stack`). -/
abbrev OptSt := List Stmt × List (List Stmt)

/-- The six non-bracket arms of `optimise_local`'s symbol loop
(src/bf2c/localop.rs lines 31-84): these only touch the current statement
list, coalescing into its last statement (the list head here) when the
pattern fits.  Note the `Minus` arm: like the Rust source it only updates
an *existing* entry of `changes` — there is no insert branch for a
missing entry (the `Plus` arm has one). -/
def stepS (sym : BfSymbol) (stmts : List Stmt) : List Stmt :=
  match sym, stmts with
  | BfSymbol.Plus, Stmt.Action offset changes :: rest =>
    let changes1 :=
      match getC changes offset with
      | some n => setC changes offset (n + 1)
      | none => setC changes offset 1
    let changes2 := if getC changes1 offset = some 0 then eraseC changes1 offset else changes1
    Stmt.Action offset changes2 :: rest
  | BfSymbol.Plus, stmts =>
    Stmt.Action 0 [(0, 1)] :: stmts
  | BfSymbol.Minus, Stmt.Action offset changes :: rest =>
    let changes1 :=
      match getC changes offset with
      | some n => setC changes offset (n - 1)
      | none => changes
    let changes2 := if getC changes1 offset = some 0 then eraseC changes1 offset else changes1
    Stmt.Action offset changes2 :: rest
  | BfSymbol.Minus, stmts =>
    Stmt.Action 0 [(0, -1)] :: stmts
  | BfSymbol.Right, Stmt.Action offset changes :: rest =>
    Stmt.Action (offset + 1) changes :: rest
  | BfSymbol.Right, stmts =>
    Stmt.Action 1 [] :: stmts
  | BfSymbol.Left, Stmt.Action offset changes :: rest =>
    Stmt.Action (offset - 1) changes :: rest
  | BfSymbol.Left, stmts =>
    Stmt.Action (-1) [] :: stmts
  | BfSymbol.Period, Stmt.Output n :: rest =>
    Stmt.Output (n + 1) :: rest
  | BfSymbol.Period, stmts =>
    Stmt.Output 1 :: stmts
  | BfSymbol.Comma, Stmt.Input n :: rest =>
    Stmt.Input (n + 1) :: rest
  | BfSymbol.Comma, stmts =>
    Stmt.Input 1 :: stmts
  | _, stmts => stmts

/-- One step of `optimise_local`'s symbol loop
(src/bf2c/localop.rs lines 30-140): brackets push/pop the scope stack
(`LoopClose` with an empty stack is silently dropped), everything else is
`stepS` on the current list. -/
def step (st : OptSt) (sym : BfSymbol) : OptSt :=
  match sym, st with
  | BfSymbol.OpenBracket, (stmts, stack) =>
    ([], stmts :: stack)
  | BfSymbol.CloseBracket, (stmts, start :: stack) =>
    (classify stmts.reverse :: start, stack)
  | BfSymbol.CloseBracket, (stmts, []) =>
    (stmts, [])
  | sym, (stmts, stack) =>
    (stepS sym stmts, stack)

/-- `optimise_local`'s loop as a fold over the symbols. -/
def runOpt (prog : List BfSymbol) (st : OptSt) : OptSt :=
  prog.foldl step st

/-- `optimise_local` (src/bf2c/localop.rs lines 25-144). -/
def optimise_local (prog : List BfSymbol) : Prog :=
  Prog.Vec ((runOpt prog ([], [])).1.reverse)


/-! ## Tokenizer (`parse` in src/bf2c/mod.rs)

The Rust function takes a `&str` and iterates `buf.trim().chars()`.  We
model the character stream as a `List Char`; `trim` only strips leading
and trailing whitespace, every character of which falls into the
catch-all "ignore non-BF characters" arm and never touches the bracket
depth, so working on the untrimmed list is observationally identical. -/

/-- The character-to-symbol table of `parse`'s `match`
(src/bf2c/mod.rs lines 24-44); `none` for the ignored catch-all arm. -/
def charToSymbol (c : Char) : Option BfSymbol :=
  if c = '<' then some BfSymbol.Left
  else if c = '>' then some BfSymbol.Right
  else if c = '+' then some BfSymbol.Plus
  else if c = '-' then some BfSymbol.Minus
  else if c = '.' then some BfSymbol.Period
  else if c = ',' then some BfSymbol.Comma
  else if c = '[' then some BfSymbol.OpenBracket
  else if c = ']' then some BfSymbol.CloseBracket
  else none

/-- The loop of `parse` (src/bf2c/mod.rs lines 21-50), with the output
accumulator kept reversed (`out.reverse` is the Rust `out` vector).
`bracket_depth` is only touched when `verify` holds; the final
`bracket_depth != 0` check sits outside the loop (and outside any
`verify` test) exactly as in the source. -/
def parseAux (verify : Bool) : List Char → Nat → List BfSymbol →
    Except String (List BfSymbol)
  | [], depth, out =>
    if depth ≠ 0 then
      Except.error "Brainfuck code is not well-formed (Brackets do not match)"
    else Except.ok out.reverse
  | c :: rest, depth, out =>
    match charToSymbol c with
    | none => parseAux verify rest depth out
    | some BfSymbol.OpenBracket =>
      parseAux verify rest (if verify then depth + 1 else depth)
        (BfSymbol.OpenBracket :: out)
    | some BfSymbol.CloseBracket =>
      if verify then
        if depth = 0 then Except.error "missing open bracket"
        else parseAux verify rest (depth - 1) (BfSymbol.CloseBracket :: out)
      else parseAux verify rest depth (BfSymbol.CloseBracket :: out)
    | some sym => parseAux verify rest depth (sym :: out)

/-- `parse` (src/bf2c/mod.rs lines 20-51). -/
def parse (buf : List Char) (verify : Bool) : Except String (List BfSymbol) :=
  parseAux verify buf 0 []

/-! ## Emitter (src/bf2c/mod.rs lines 53-117) -/

/-- `" ".repeat(4)` then `.repeat(depth)`: the indentation prefix. -/
def indentOf (depth : Nat) : String :=
  match depth with
  | 0 => ""
  | d + 1 => indentOf d ++ "    "

/-- The loop of `emit_without_boilerplate` (src/bf2c/mod.rs lines 81-110).
`indent_depth` starts at 1; note that — exactly as in the source — the
line written for `Left` is `ptr++;` and the line for `Right` is `ptr--;`.
`indent_depth` is a `usize` in the source (decrement below zero would
panic); we model the same counter with `Nat` subtraction. -/
def emitAux : List BfSymbol → Nat → String
  | [], _ => ""
  | BfSymbol.Left :: rest, d => indentOf d ++ "ptr++;\n" ++ emitAux rest d
  | BfSymbol.Right :: rest, d => indentOf d ++ "ptr--;\n" ++ emitAux rest d
  | BfSymbol.Plus :: rest, d => indentOf d ++ "(*ptr)++;\n" ++ emitAux rest d
  | BfSymbol.Minus :: rest, d => indentOf d ++ "(*ptr)--;\n" ++ emitAux rest d
  | BfSymbol.Period :: rest, d => indentOf d ++ "putchar(*ptr);\n" ++ emitAux rest d
  | BfSymbol.Comma :: rest, d => indentOf d ++ "*ptr = getchar();\n" ++ emitAux rest d
  | BfSymbol.OpenBracket :: rest, d =>
    indentOf d ++ "while (*ptr) \x7b\n" ++ emitAux rest (d + 1)
  | BfSymbol.CloseBracket :: rest, d =>
    indentOf (d - 1) ++ "\x7d\n" ++ emitAux rest (d - 1)

/-- `emit_without_boilerplate` (src/bf2c/mod.rs lines 75-112). -/
def emit_without_boilerplate (tokens : List BfSymbol) : String :=
  emitAux tokens 1

/-- `wrap_boilerplate` (src/bf2c/mod.rs lines 53-69). -/
def wrap_boilerplate (code : String) : String :=
  "#include <stdio.h>\nint main() \x7b\n   char tape[200000];\n   for (int i = 0; i < 200000; i++) tape[i] = 0;\n   char *ptr = tape;\n"
    ++ code ++ "   return 0;\n\x7d\n"

/-- `emit` (src/bf2c/mod.rs lines 71-73). -/
def emit (tokens : List BfSymbol) : String :=
  wrap_boilerplate (emit_without_boilerplate tokens)

/-- `bf2cify` (src/bf2c/mod.rs lines 114-117): verify-parse, then emit. -/
def bf2cify (input : List Char) : Except String String :=
  (parse input true).map emit

/-! ## Reference semantics

Machine state for both interpreters: a byte tape (cells kept `< 256` by
reducing every write modulo 256), the pointer, an input stream and the
output so far.  An `Input` on an exhausted stream writes 0; both
interpreters make the same choice, so it does not affect any comparison. -/

structure MState where
  tape : Int → Nat
  pos : Int
  inp : List Nat
  out : List Nat

/-- Point update of a tape. -/
def wr (t : Int → Nat) (p : Int) (v : Nat) : Int → Nat :=
  fun q => if q = p then v else t q

/-- The all-zero initial state with input stream `inp`. -/
def initSt (inp : List Nat) : MState :=
  ⟨fun _ => 0, 0, inp, []⟩

/-- Add a signed delta to a byte, wrapping modulo 256. -/
def addByte (v : Nat) (d : Int) : Nat := (((v : Int) + d).emod 256).toNat

/-- Index (in the given suffix) of the `]` matching an already-seen `[`,
given the number of still-open inner brackets. -/
def seekClose : List BfSymbol → Nat → Option Nat
  | [], _ => none
  | BfSymbol.CloseBracket :: _, 0 => some 0
  | BfSymbol.CloseBracket :: rest, d + 1 => (seekClose rest d).map (· + 1)
  | BfSymbol.OpenBracket :: rest, d => (seekClose rest (d + 1)).map (· + 1)
  | _ :: rest, d => (seekClose rest d).map (· + 1)

/-- Index (in the given reversed prefix) of the `[` matching an
already-seen `]`. -/
def seekOpen : List BfSymbol → Nat → Option Nat
  | [], _ => none
  | BfSymbol.OpenBracket :: _, 0 => some 0
  | BfSymbol.OpenBracket :: rest, d + 1 => (seekOpen rest d).map (· + 1)
  | BfSymbol.CloseBracket :: rest, d => (seekOpen rest (d + 1)).map (· + 1)
  | _ :: rest, d => (seekOpen rest d).map (· + 1)

/-- Naive per-instruction interpretation of a raw symbol sequence: a
program counter over the flat list, `[` jumping past its matching `]`
when the current cell is zero, `]` jumping back to its matching `[`.
Fuel-indexed; `none` means out of fuel (or an unmatched bracket). -/
def runRaw : Nat → List BfSymbol → Nat → MState → Option MState
  | 0, _, _, _ => none
  | fuel + 1, prog, pc, st =>
    match prog.get? pc with
    | none => some st
    | some BfSymbol.Right => runRaw fuel prog (pc + 1) { st with pos := st.pos + 1 }
    | some BfSymbol.Left => runRaw fuel prog (pc + 1) { st with pos := st.pos - 1 }
    | some BfSymbol.Plus =>
      runRaw fuel prog (pc + 1)
        { st with tape := wr st.tape st.pos (addByte (st.tape st.pos) 1) }
    | some BfSymbol.Minus =>
      runRaw fuel prog (pc + 1)
        { st with tape := wr st.tape st.pos (addByte (st.tape st.pos) (-1)) }
    | some BfSymbol.Period =>
      runRaw fuel prog (pc + 1) { st with out := st.out ++ [st.tape st.pos] }
    | some BfSymbol.Comma =>
      match st.inp with
      | [] => runRaw fuel prog (pc + 1) { st with tape := wr st.tape st.pos 0 }
      | b :: bs =>
        runRaw fuel prog (pc + 1)
          { st with tape := wr st.tape st.pos (b % 256), inp := bs }
    | some BfSymbol.OpenBracket =>
      if st.tape st.pos = 0 then
        match seekClose (prog.drop (pc + 1)) 0 with
        | none => none
        | some j => runRaw fuel prog (pc + 1 + j + 1) st
      else runRaw fuel prog (pc + 1) st
    | some BfSymbol.CloseBracket =>
      match seekOpen (prog.take pc).reverse 0 with
      | none => none
      | some j => runRaw fuel prog (pc - 1 - j) st

/-- Apply an `Action`: per-offset deltas relative to the pointer at run
entry, then the net pointer move. -/
def applyAction (offset : Int) (changes : Changes) (st : MState) : MState :=
  { st with
    tape := changes.foldl
      (fun t kv => wr t (st.pos + kv.1) (addByte (t (st.pos + kv.1)) kv.2)) st.tape,
    pos := st.pos + offset }

/-- One iteration of a `MultiplicationLoop`: subtract `decrement` from the
origin cell and add each target's per-iteration delta. -/
def applyMultIter (decrement : Nat) (targets : List (Int × Int)) (st : MState) : MState :=
  let t1 := wr st.tape st.pos (addByte (st.tape st.pos) (-(decrement : Int)))
  { st with
    tape := targets.foldl
      (fun t kv => wr t (st.pos + kv.1) (addByte (t (st.pos + kv.1)) kv.2)) t1 }

/-- `k` repeated output operations (append the current cell). -/
def writeN : Nat → MState → MState
  | 0, st => st
  | k + 1, st => writeN k { st with out := st.out ++ [st.tape st.pos] }

/-- `k` repeated input operations (read a byte into the current cell; 0
once the stream is exhausted). -/
def readN : Nat → MState → MState
  | 0, st => st
  | k + 1, st =>
    match st.inp with
    | [] => readN k { st with tape := wr st.tape st.pos 0 }
    | b :: bs => readN k { st with tape := wr st.tape st.pos (b % 256), inp := bs }

/-- Interpretation of an optimised statement list.  `Action` applies its
deltas then moves the pointer; `Output`/`Input` repeat the I/O operation
`count` times; `ScanLoop` steps the pointer by its direction until the
current cell is zero; `MultiplicationLoop` iterates `applyMultIter` until
the origin cell reaches zero; `Loop` is a while-current-cell-nonzero
loop.  Fuel-indexed; `none` means out of fuel. -/
def execStmts : Nat → List Stmt → MState → Option MState
  | 0, _, _ => none
  | _ + 1, [], st => some st
  | fuel + 1, Stmt.Action offset changes :: rest, st =>
    execStmts fuel rest (applyAction offset changes st)
  | fuel + 1, Stmt.Output n :: rest, st =>
    execStmts fuel rest (writeN n.toNat st)
  | fuel + 1, Stmt.Input n :: rest, st =>
    execStmts fuel rest (readN n.toNat st)
  | fuel + 1, Stmt.ZeroLoop :: rest, st =>
    execStmts fuel rest { st with tape := wr st.tape st.pos 0 }
  | fuel + 1, Stmt.ScanLoop dir :: rest, st =>
    if st.tape st.pos = 0 then execStmts fuel rest st
    else execStmts fuel (Stmt.ScanLoop dir :: rest) { st with pos := st.pos + dir }
  | fuel + 1, Stmt.MultiplicationLoop dec tg :: rest, st =>
    if st.tape st.pos = 0 then execStmts fuel rest st
    else execStmts fuel (Stmt.MultiplicationLoop dec tg :: rest) (applyMultIter dec tg st)
  | fuel + 1, Stmt.Loop body :: rest, st =>
    if st.tape st.pos = 0 then execStmts fuel rest st
    else (execStmts fuel body st).bind (execStmts fuel (Stmt.Loop body :: rest))

/-- Interpretation of a `Prog` tree. -/
def execProg (fuel : Nat) (p : Prog) (st : MState) : Option MState :=
  match p with
  | Prog.Vec stmts => execStmts fuel stmts st

/-! ## Specification-side predicates

These definitions state, over the embedded types, the shapes and
conditions the claims talk about. -/

/-- Is this statement an `Action`? -/
def isAction : Stmt → Bool
  | Stmt.Action _ _ => true
  | _ => false

/-- Are all statements of the list `Action`s? -/
def allActions (body : List Stmt) : Bool := body.all isAction

/-- No two adjacent `Action`s in this one list (top level only). -/
def chainOk : List Stmt → Bool
  | a :: b :: rest => !(isAction a && isAction b) && chainOk (b :: rest)
  | _ => true

/-- Every `Loop` body nested anywhere inside the list satisfies
`chainOk`. -/
def nestedOk : List Stmt → Bool
  | [] => true
  | Stmt.Loop body :: rest => chainOk body && nestedOk body && nestedOk rest
  | _ :: rest => nestedOk rest

/-- No two adjacent `Action`s in any statement list of the tree: the top
level and, recursively, every `Loop` body. -/
def noAdjP : Prog → Bool
  | Prog.Vec stmts => chainOk stmts && nestedOk stmts

/-- The changes map is sorted strictly by key (the representation
invariant of `Changes`). -/
abbrev SortedC (c : Changes) : Prop :=
  c.Pairwise (fun x y => x.1 < y.1)

/-- A well-formed changes map: sorted, and no entry carries value 0. -/
abbrev GoodC (c : Changes) : Prop :=
  SortedC c ∧ ∀ kv ∈ c, kv.2 ≠ 0

/-- Every `Action` in the tree carries a well-formed changes map
(`Loop` bodies are descended into). -/
def GoodL : List Stmt → Prop
  | [] => True
  | a :: rest =>
    (match a with
     | Stmt.Action _ c => GoodC c
     | Stmt.Loop body => GoodL body
     | _ => True)
    ∧ GoodL rest

/-- No `Action` in the tree carries a zero-valued changes entry. -/
def zeroFreeL : List Stmt → Bool
  | [] => true
  | a :: rest =>
    (match a with
     | Stmt.Action _ c => c.all (fun kv => !(kv.2 == 0))
     | Stmt.Loop body => zeroFreeL body
     | _ => true)
    && zeroFreeL rest

/-- `zeroFreeL` on a `Prog`. -/
def zeroFreeP : Prog → Bool
  | Prog.Vec stmts => zeroFreeL stmts

/-- Bracket balance of a symbol sequence starting from `d` open
brackets: every `LoopClose` finds an open bracket and the final depth
is zero. -/
def balancedFrom (d : Nat) : List BfSymbol → Bool
  | [] => d == 0
  | BfSymbol.OpenBracket :: rest => balancedFrom (d + 1) rest
  | BfSymbol.CloseBracket :: rest =>
    match d with
    | 0 => false
    | d' + 1 => balancedFrom d' rest
  | _ :: rest => balancedFrom d rest

/-- Bracket-balanced symbol sequence. -/
def balanced (xs : List BfSymbol) : Bool := balancedFrom 0 xs

/-- Number of still-open scopes after processing the sequence from `d`
open scopes, with excess closes dropped (mirrors the optimiser's stack
discipline on unbalanced input). -/
def dangling (d : Nat) : List BfSymbol → Nat
  | [] => d
  | BfSymbol.OpenBracket :: rest => dangling (d + 1) rest
  | BfSymbol.CloseBracket :: rest => dangling (d - 1) rest
  | _ :: rest => dangling d rest

/-- Bracket scan of a character stream: `none` when some `LoopClose`
character occurs with zero open depth ("premature close"), otherwise the
final open-bracket depth. -/
def scanDepth (d : Nat) : List Char → Option Nat
  | [] => some d
  | c :: rest =>
    match charToSymbol c with
    | some BfSymbol.OpenBracket => scanDepth (d + 1) rest
    | some BfSymbol.CloseBracket =>
      match d with
      | 0 => none
      | d' + 1 => scanDepth d' rest
    | _ => scanDepth d rest

/-- The concrete symbol input of the declutter scenario:
`++[->+>+<-<]`. -/
def declutterInput : List BfSymbol :=
  [BfSymbol.Plus, BfSymbol.Plus, BfSymbol.OpenBracket, BfSymbol.Minus,
   BfSymbol.Right, BfSymbol.Plus, BfSymbol.Right, BfSymbol.Plus,
   BfSymbol.Left, BfSymbol.Minus, BfSymbol.Left, BfSymbol.CloseBracket]


/-- The shape accepted by the scan-loop match arm: a single `Action`
with direction ±1 and empty changes. -/
def isScanShape : List Stmt → Bool
  | [Stmt.Action d []] => d == 1 || d == -1
  | _ => false

/-- Invariant carried by the optimiser state: the current list and every
stacked list satisfy the adjacency and nesting predicates. -/
def OptInv (st : OptSt) : Prop :=
  (chainOk st.1 = true ∧ nestedOk st.1 = true)
  ∧ ∀ l ∈ st.2, chainOk l = true ∧ nestedOk l = true

/-- Invariant carried by the optimiser state for claim C5: the current
list and every stacked list satisfy `GoodL`. -/
def GoodInv (st : OptSt) : Prop :=
  GoodL st.1 ∧ ∀ l ∈ st.2, GoodL l

section SourceTests
/-! Sanity checks mirroring the repository's own unit tests
(src/bf2c/localop.rs `mod tests`). -/

open BfSymbol

example : optimise_local [Plus, Plus, Plus] = Prog.Vec [Stmt.Action 0 [(0, 3)]] := rfl

example : optimise_local [Plus, Plus, Plus, Minus, Minus]
    = Prog.Vec [Stmt.Action 0 [(0, 1)]] := rfl

example : optimise_local [Right, Right, Left, Left, Left]
    = Prog.Vec [Stmt.Action (-1) []] := rfl

example : optimise_local [Comma, Comma, Period, Period]
    = Prog.Vec [Stmt.Input 2, Stmt.Output 2] := rfl

example : optimise_local
      [Plus, Plus, Right, Right, Plus, Plus, Left, Left, Left]
    = Prog.Vec [Stmt.Action (-1) [(0, 2), (2, 2)]] := rfl

example : optimise_local [Right, OpenBracket, Right, CloseBracket]
    = Prog.Vec [Stmt.Action 1 [], Stmt.ScanLoop 1] := rfl

example : optimise_local [Right, OpenBracket, Right, Left, Left, CloseBracket]
    = Prog.Vec [Stmt.Action 1 [], Stmt.ScanLoop (-1)] := rfl

example : optimise_local [OpenBracket, Minus, Right, Plus, Left, CloseBracket]
    = Prog.Vec [Stmt.MultiplicationLoop 1 [(1, 1)]] := rfl

example : optimise_local
      [OpenBracket, Minus, Left, Plus, Right, Right, Plus, Plus, Plus, Left, CloseBracket]
    = Prog.Vec [Stmt.MultiplicationLoop 1 [(-1, 1), (1, 3)]] := rfl

example : optimise_local
      [OpenBracket, Minus, Minus, Minus, Right, Right, Plus, Plus, Right, Right, Right,
       Plus, Plus, Plus, Plus, Plus, Left, Left, Left, Left, Left, CloseBracket]
    = Prog.Vec [Stmt.MultiplicationLoop 3 [(2, 2), (5, 5)]] := rfl

example : optimise_local
      [OpenBracket, Minus, Minus, Right, Right, Plus, Left, Left, CloseBracket]
    = Prog.Vec [Stmt.Loop [Stmt.Action 0 [(0, -2), (2, 1)]]] := rfl

example : optimise_local
      [OpenBracket, Minus, Right, Plus, Right, Plus, Left, Minus, Left, CloseBracket]
    = Prog.Vec [Stmt.MultiplicationLoop 1 [(2, 1)]] := rfl

example : optimise_local
      [OpenBracket, OpenBracket, Comma, CloseBracket, Minus, CloseBracket]
    = Prog.Vec [Stmt.Loop [Stmt.Loop [Stmt.Input 1], Stmt.Action 0 [(0, -1)]]] := rfl

end SourceTests

section SemanticsTests
/-! Cross-validation of the two interpreters on real programs (on inputs
that do not trip the optimiser's `Minus` asymmetry the two agree). -/

open BfSymbol

/-- `++[->+<]` transfers the origin cell to offset 1, raw semantics. -/
example :
    (runRaw 100 [Plus, Plus, OpenBracket, Minus, Right, Plus, Left, CloseBracket] 0
        (initSt [])).map (fun st => (st.tape 0, st.tape 1, st.pos, st.out))
      = some (0, 2, 0, []) := rfl

/-- ...and the same observables through the optimised tree. -/
example :
    (execProg 100
        (optimise_local [Plus, Plus, OpenBracket, Minus, Right, Plus, Left, CloseBracket])
        (initSt [])).map (fun st => (st.tape 0, st.tape 1, st.pos, st.out))
      = some (0, 2, 0, []) := rfl

/-- A scan loop: `+>++[<]` leaves the pointer on the first zero cell
left of the start, raw semantics. -/
example :
    (runRaw 100 [Plus, Right, Plus, Plus, OpenBracket, Left, CloseBracket] 0
        (initSt [])).map (fun st => (st.tape 0, st.tape 1, st.pos, st.out))
      = some (1, 2, -1, []) := rfl

/-- ...and through the optimised tree (`ScanLoop (-1)`). -/
example :
    (execProg 100
        (optimise_local [Plus, Right, Plus, Plus, OpenBracket, Left, CloseBracket])
        (initSt [])).map (fun st => (st.tape 0, st.tape 1, st.pos, st.out))
      = some (1, 2, -1, []) := rfl

/-- Interleaved I/O `,+.` raw vs optimised. -/
example :
    (runRaw 100 [Comma, Plus, Period] 0 (initSt [65])).map
        (fun st => (st.tape 0, st.out))
      = some (66, [66]) := rfl

example :
    (execProg 100 (optimise_local [Comma, Plus, Period]) (initSt [65])).map
        (fun st => (st.tape 0, st.out))
      = some (66, [66]) := rfl

end SemanticsTests

/-! ## Claim C1 (round-trip semantic equivalence) -/

/-- C1: the claimed byte-for-byte round-trip equivalence between the
optimised tree and the raw per-instruction interpretation fails: on the
balanced program `>-` the raw semantics decrements cell 1 to 255, while
`optimise_local` silently drops the decrement (the `Minus` arm never
inserts a missing changes entry) and the optimised tree leaves cell 1
at 0.  Outputs agree (both empty); the final tapes differ. -/
theorem C1_minus_drop_breaks_equivalence :
    (runRaw 10 [BfSymbol.Right, BfSymbol.Minus] 0 (initSt [])).map
        (fun st => (st.tape 1, st.out)) = some (255, [])
    ∧ (execProg 10 (optimise_local [BfSymbol.Right, BfSymbol.Minus]) (initSt [])).map
        (fun st => (st.tape 1, st.out)) = some (0, [])
    ∧ optimise_local [BfSymbol.Right, BfSymbol.Minus] = Prog.Vec [Stmt.Action 1 []] :=
  ⟨rfl, rfl, rfl⟩

/-! ## Claim C4 (Increment/Decrement coalescing) -/

/-- C4: the claim's example fails on the code: `MoveRight` followed by
`Decrement` yields `Action(1, {})`, not `Action(1, {1: -1})` — the
`Minus` arm of the optimiser only updates an existing entry and, unlike
the `Plus` arm, has no branch creating a new `-1` entry.  (`Plus` behaves
as claimed: `MoveRight` then `Increment` gives `Action(1, {1: 1})`.) -/
theorem C4_minus_entry_not_created :
    optimise_local [BfSymbol.Right, BfSymbol.Minus] = Prog.Vec [Stmt.Action 1 []]
    ∧ optimise_local [BfSymbol.Right, BfSymbol.Plus] = Prog.Vec [Stmt.Action 1 [(1, 1)]] :=
  ⟨rfl, rfl⟩

/-! ## Claim C3 (emitter pointer-move lines) -/

/-- C3: the emitted C is not semantically equivalent to the source: the
lines for the two pointer moves are swapped.  `MoveRight` emits
`ptr--;` (one cell toward *lower* tape indices) and `MoveLeft` emits
`ptr++;`, both bare and through the full `bf2cify` pipeline on the
one-character program `>`. -/
theorem C3_move_lines_swapped :
    emit_without_boilerplate [BfSymbol.Right] = "    ptr--;\n"
    ∧ emit_without_boilerplate [BfSymbol.Left] = "    ptr++;\n"
    ∧ bf2cify ['>']
      = Except.ok
          ("#include <stdio.h>\nint main() \x7b\n   char tape[200000];\n   for (int i = 0; i < 200000; i++) tape[i] = 0;\n   char *ptr = tape;\n    ptr--;\n   return 0;\n\x7d\n") :=
  ⟨rfl, rfl, rfl⟩

/-! ## Claim C6 (declutter scenario) -/

/-- C6 counterexample: on `++[->+>+<-<]` the multiplication loop's
target set is exactly `{(2, 1)}` — it does not contain the pair
`(1, 1)` the claim asserts; the self-cancelling `+`/`-` at offset 1
already cancels inside the single folded `Action`, so no offset-1 entry
survives to become a target. -/
theorem C6_counterexample :
    optimise_local declutterInput
      = Prog.Vec [Stmt.Action 0 [(0, 2)], Stmt.MultiplicationLoop 1 [(2, 1)]]
    ∧ ((1, 1) : Int × Int) ∉ ([(2, 1)] : List (Int × Int)) :=
  ⟨rfl, by decide⟩

/-- C6 (amended): `++[->+>+<-<]` optimises to exactly `Action(0, {0: 2})`
followed by `MultiplicationLoop(1, {(2, 1)})`; the decrement/increment
pair at offset 1 is absorbed and leaves no target. -/
theorem C6_declutter_scenario :
    optimise_local declutterInput
      = Prog.Vec [Stmt.Action 0 [(0, 2)], Stmt.MultiplicationLoop 1 [(2, 1)]] := rfl

/-! ## Claim C2 counterexample (classification does not check the sign) -/

/-- C2 counterexample: the body `[Action(0, {0: 1})]` (from `[+]`) is
pointer-neutral and its offset-0 entry is *positive* and odd; the claim
says such a loop is left as a generic `Loop`, but the code classifies it
as `MultiplicationLoop(255, {})` — the filter checks only oddness, never
negativity (`-1 as u8` wraps to 255). -/
theorem C2_counterexample :
    classify [Stmt.Action 0 [(0, 1)]] = Stmt.MultiplicationLoop 255 []
    ∧ classify [Stmt.Action 0 [(0, 1)]] ≠ Stmt.Loop [Stmt.Action 0 [(0, 1)]] :=
  ⟨rfl, fun h => nomatch h⟩

/-! ## Claim C5 counterexample -/

/-- C5 counterexample: on `>-+.-+` the run `-+` at run-local offset 1
nets to zero yet leaves the entry `{1: 1}` (the initial decrement was
dropped by the `Minus` arm), and the trailing `-+` run nets to offset 0
with empty changes yet still appears in the output as `Action(0, {})` —
the optimiser never removes an emptied `Action`. -/
theorem C5_counterexample :
    optimise_local
        [BfSymbol.Right, BfSymbol.Minus, BfSymbol.Plus, BfSymbol.Period,
         BfSymbol.Minus, BfSymbol.Plus]
      = Prog.Vec [Stmt.Action 1 [(1, 1)], Stmt.Output 1, Stmt.Action 0 []]
    ∧ getC [(1, 1)] 1 = some 1 :=
  ⟨rfl, rfl⟩

/-! ## Claim C7 counterexample -/

/-- C7 counterexample: on `+[-` (statements before an unmatched open,
then a trailing unclosed body) the claim predicts the trailing body is
discarded and the earlier `Action(0, {0: 1})` kept; the code does the
opposite — it returns the trailing unclosed body `Action(0, {0: -1})`
and the statements pushed on the scope stack are lost. -/
theorem C7_counterexample :
    optimise_local [BfSymbol.Plus, BfSymbol.OpenBracket, BfSymbol.Minus]
      = Prog.Vec [Stmt.Action 0 [(0, -1)]]
    ∧ Prog.Vec [Stmt.Action 0 [(0, -1)]] ≠ Prog.Vec [Stmt.Action 0 [(0, 1)]] :=
  ⟨rfl, fun h => nomatch h⟩

/-! ## Claim C9 (scan-loop recognition) -/

/-- The multiplication-loop fallback never produces a `ScanLoop`. -/
theorem multFold_ne_scanLoop (body : List Stmt) (d : Int) :
    multFold body ≠ Stmt.ScanLoop d := by
  intro h
  unfold multFold at h
  split at h
  · exact nomatch h
  · split at h
    · exact nomatch h
    · split at h
      · exact nomatch h
      · exact nomatch h

/-- C9: a closed loop body is classified as `ScanLoop d` exactly when it
is the single statement `Action(d, {})` with `d = +1` or `d = -1`; every
other body shape (different net displacement, surviving value change, or
more than one statement) is never classified as a `ScanLoop`. -/
theorem C9_scan_loop_classification :
    ∀ (body : List Stmt) (d : Int),
      classify body = Stmt.ScanLoop d ↔
        body = [Stmt.Action d []] ∧ (d = 1 ∨ d = -1) := by
  intro body d
  constructor
  · intro h
    rcases body with _ | ⟨a, rest⟩
    · simp only [classify] at h
      exact absurd h (multFold_ne_scanLoop _ _)
    · rcases rest with _ | ⟨b, rest2⟩
      · rcases a with ⟨off, ch⟩ | n | n | lb | _ | dd | ⟨dd, tt⟩
        · rcases ch with _ | ⟨kv, ch2⟩
          · simp only [classify] at h
            by_cases hd : off = 1 ∨ off = -1
            · rw [if_pos hd] at h
              cases h
              exact ⟨rfl, hd⟩
            · rw [if_neg hd] at h
              exact absurd h (multFold_ne_scanLoop _ _)
          · simp only [classify] at h
            exact absurd h (multFold_ne_scanLoop _ _)
        · simp only [classify] at h
          exact absurd h (multFold_ne_scanLoop _ _)
        · simp only [classify] at h
          exact absurd h (multFold_ne_scanLoop _ _)
        · simp only [classify] at h
          exact absurd h (multFold_ne_scanLoop _ _)
        · simp only [classify] at h
          exact absurd h (multFold_ne_scanLoop _ _)
        · simp only [classify] at h
          exact absurd h (multFold_ne_scanLoop _ _)
        · simp only [classify] at h
          exact absurd h (multFold_ne_scanLoop _ _)
      · simp only [classify] at h
        exact absurd h (multFold_ne_scanLoop _ _)
  · rintro ⟨rfl, hd⟩
    show classify [Stmt.Action d []] = Stmt.ScanLoop d
    simp only [classify]
    rw [if_pos hd]

/-! ## Claim C2 (multiplication-loop classification condition) -/

/-- A body of `Action`s always folds successfully. -/
theorem foldBodyAux_isSome_of_allActions :
    ∀ (body : List Stmt) (oc : Int × Changes), (∀ s ∈ body, isAction s = true) →
      ∃ oc', foldBodyAux body oc = some oc'
  | [], oc, _ => ⟨oc, rfl⟩
  | a :: rest, oc, h => by
    have ha : isAction a = true := h a (List.mem_cons_self a rest)
    cases a with
    | Action offset1 changes1 =>
      exact foldBodyAux_isSome_of_allActions rest _
        (fun s hs => h s (List.mem_cons_of_mem _ hs))
    | Output n => exact absurd ha (by simp [isAction])
    | Input n => exact absurd ha (by simp [isAction])
    | Loop b => exact absurd ha (by simp [isAction])
    | ZeroLoop => exact absurd ha (by simp [isAction])
    | ScanLoop d => exact absurd ha (by simp [isAction])
    | MultiplicationLoop d t => exact absurd ha (by simp [isAction])

/-- Conversely, a successful fold forces every statement to be an
`Action`. -/
theorem allActions_of_foldBodyAux_some :
    ∀ (body : List Stmt) (oc oc' : Int × Changes), foldBodyAux body oc = some oc' →
      ∀ s ∈ body, isAction s = true
  | [], _, _, _, s, hs => absurd hs (List.not_mem_nil s)
  | a :: rest, oc, oc', h, s, hs => by
    cases a with
    | Action offset1 changes1 =>
      rcases List.mem_cons.mp hs with rfl | hs'
      · rfl
      · exact allActions_of_foldBodyAux_some rest _ oc' h s hs'
    | Output n => exact nomatch h
    | Input n => exact nomatch h
    | Loop b => exact nomatch h
    | ZeroLoop => exact nomatch h
    | ScanLoop d => exact nomatch h
    | MultiplicationLoop d t => exact nomatch h

/-- When the body does not have the scan-loop shape, classification is
exactly the multiplication-loop attempt. -/
theorem classify_eq_multFold (body : List Stmt) (h : isScanShape body = false) :
    classify body = multFold body := by
  rcases body with _ | ⟨a, rest⟩
  · simp only [classify]
  · rcases rest with _ | ⟨b, rest2⟩
    · rcases a with ⟨off, ch⟩ | n | n | lb | _ | dd | ⟨dd, tt⟩ <;>
        try (simp only [classify])
      rcases ch with _ | ⟨kv, ch2⟩
      · simp only [isScanShape] at h
        simp only [classify]
        rw [if_neg]
        intro hc
        rcases hc with rfl | rfl <;> simp at h
      · simp only [classify]
    · simp only [classify]

/-- Unfolding `multFold` when the folded map has no offset-0 entry. -/
theorem multFold_eq_none (body : List Stmt) (off : Int) (ch : Changes)
    (hf : foldBody body = some (off, ch)) (hg : getC ch 0 = none) :
    multFold body = Stmt.Loop body := by
  unfold multFold
  split
  · rfl
  · rename_i off2 ch2 h
    rw [hf] at h
    simp only [Option.some.injEq, Prod.mk.injEq] at h
    obtain ⟨rfl, rfl⟩ := h
    split
    · rfl
    · rename_i v2 h2
      rw [hg] at h2
      exact nomatch h2

/-- Unfolding `multFold` when the folded map has an offset-0 entry. -/
theorem multFold_eq_some (body : List Stmt) (off : Int) (ch : Changes) (v : Int)
    (hf : foldBody body = some (off, ch)) (hg : getC ch 0 = some v) :
    multFold body =
      if v % 2 ≠ 0 ∧ off = 0 then
        Stmt.MultiplicationLoop ((-v).emod 256).toNat
          ((eraseC ch 0).filter (fun kv => kv.2 ≠ 0))
      else Stmt.Loop body := by
  unfold multFold
  split
  · rename_i h
    rw [hf] at h
    exact nomatch h
  · rename_i off2 ch2 h
    rw [hf] at h
    simp only [Option.some.injEq, Prod.mk.injEq] at h
    obtain ⟨rfl, rfl⟩ := h
    split
    · rename_i h2
      rw [hg] at h2
      exact nomatch h2
    · rename_i v2 h2
      rw [hg] at h2
      simp only [Option.some.injEq] at h2
      subst h2
      rfl

/-- C2 (amended): for a body of `Action` statements that does not match
the scan-loop shape, the loop is classified as a `MultiplicationLoop`
exactly when the folded running offset is 0 and the combined mapping has
an entry at offset 0 whose value is odd — of either sign (the code never
checks negativity); in every other such case the loop stays a generic
`Loop` with its body unchanged. -/
theorem C2_multiplication_condition :
    ∀ body : List Stmt, allActions body = true → isScanShape body = false →
      ((∃ dec targets, classify body = Stmt.MultiplicationLoop dec targets) ↔
        ∃ ch, foldBody body = some (0, ch) ∧ ∃ v, getC ch 0 = some v ∧ v % 2 ≠ 0)
      ∧ ((¬∃ ch, foldBody body = some (0, ch) ∧ ∃ v, getC ch 0 = some v ∧ v % 2 ≠ 0) →
          classify body = Stmt.Loop body) := by
  intro body hAll hScan
  rw [classify_eq_multFold body hScan]
  have hAll' : ∀ s ∈ body, isAction s = true := by
    intro s hs
    exact List.all_eq_true.mp hAll s hs
  obtain ⟨⟨off, ch⟩, hf⟩ := foldBodyAux_isSome_of_allActions body (0, []) hAll'
  have hf' : foldBody body = some (off, ch) := hf
  rcases hg : getC ch 0 with _ | v
  · have hm : multFold body = Stmt.Loop body := multFold_eq_none body off ch hf' hg
    refine ⟨⟨?_, ?_⟩, fun _ => hm⟩
    · rintro ⟨dec, t, hEq⟩
      rw [hm] at hEq
      exact nomatch hEq
    · rintro ⟨ch2, hf2, v, hg2, _⟩
      rw [hf'] at hf2
      cases hf2
      rw [hg] at hg2
      exact nomatch hg2
  · by_cases hc : v % 2 ≠ 0 ∧ off = 0
    · have hm : multFold body
          = Stmt.MultiplicationLoop ((-v).emod 256).toNat
              ((eraseC ch 0).filter (fun kv => kv.2 ≠ 0)) := by
        rw [multFold_eq_some body off ch v hf' hg]
        rw [if_pos hc]
      have hcond : ∃ ch2, foldBody body = some (0, ch2)
          ∧ ∃ v2, getC ch2 0 = some v2 ∧ v2 % 2 ≠ 0 := by
        refine ⟨ch, ?_, v, hg, hc.1⟩
        rw [hf', hc.2]
      exact ⟨⟨fun _ => hcond, fun _ => ⟨_, _, hm⟩⟩, fun hn => absurd hcond hn⟩
    · have hm : multFold body = Stmt.Loop body := by
        rw [multFold_eq_some body off ch v hf' hg]
        rw [if_neg hc]
      refine ⟨⟨?_, ?_⟩, fun _ => hm⟩
      · rintro ⟨dec, t, hEq⟩
        rw [hm] at hEq
        exact nomatch hEq
      · rintro ⟨ch2, hf2, v2, hg2, hodd2⟩
        rw [hf'] at hf2
        cases hf2
        rw [hg] at hg2
        cases hg2
        exact (hc ⟨hodd2, rfl⟩).elim

/-- Witness for C2 at the body of `[->>+<<]`-style fold: the single
statement `Action(0, {0: -1, 2: 1})` satisfies both hypotheses and is
classified as a multiplication loop. -/
theorem C2_multiplication_condition_witness :
    allActions [Stmt.Action 0 [(0, -1), (2, 1)]] = true
    ∧ isScanShape [Stmt.Action 0 [(0, -1), (2, 1)]] = false
    ∧ ∃ dec targets,
        classify [Stmt.Action 0 [(0, -1), (2, 1)]] = Stmt.MultiplicationLoop dec targets :=
  ⟨by decide, by decide,
    ((C2_multiplication_condition [Stmt.Action 0 [(0, -1), (2, 1)]]
        (by decide) (by decide)).1).mpr
      ⟨[(0, -1), (2, 1)], by decide, -1, by decide, by decide⟩⟩

/-! ## Claim C8 (tokenizer characterisation) -/

/-- With verification off, `parse`'s loop keeps the depth at 0 and never
errors: it returns the symbols in order, non-instruction characters
discarded. -/
theorem parseAux_false_eq :
    ∀ (cs : List Char) (out : List BfSymbol),
      parseAux false cs 0 out = Except.ok (out.reverse ++ cs.filterMap charToSymbol) := by
  intro cs
  induction cs with
  | nil => intro out; simp [parseAux]
  | cons c rest ih =>
    intro out
    rcases hc : charToSymbol c with _ | sym
    · simp only [parseAux, hc, List.filterMap_cons]
      exact ih out
    · cases sym <;>
        simp only [parseAux, hc, List.filterMap_cons, Bool.false_eq_true, if_false] <;>
        rw [ih] <;> simp

/-- With verification on, a premature close makes `parse`'s loop return
the "missing open bracket" error. -/
theorem parseAux_true_none :
    ∀ (cs : List Char) (d : Nat) (out : List BfSymbol), scanDepth d cs = none →
      parseAux true cs d out = Except.error "missing open bracket" := by
  intro cs
  induction cs with
  | nil => intro d out h; simp [scanDepth] at h
  | cons c rest ih =>
    intro d out h
    rcases hc : charToSymbol c with _ | sym
    · simp only [scanDepth, hc] at h
      simp only [parseAux, hc]
      exact ih d out h
    · cases sym
      case OpenBracket =>
        simp only [scanDepth, hc] at h
        simp only [parseAux, hc, if_true]
        exact ih (d + 1) _ h
      case CloseBracket =>
        simp only [scanDepth, hc] at h
        simp only [parseAux, hc, if_true]
        rcases d with _ | d'
        · simp
        · rw [if_neg (Nat.succ_ne_zero d')]
          exact ih d' _ h
      all_goals
        simp only [scanDepth, hc] at h
        simp only [parseAux, hc]
        exact ih d _ h

/-- With verification on and no premature close, `parse`'s loop succeeds
exactly when the final depth is zero, and otherwise returns the
"not well-formed" error. -/
theorem parseAux_true_some :
    ∀ (cs : List Char) (d e : Nat) (out : List BfSymbol), scanDepth d cs = some e →
      parseAux true cs d out =
        if e = 0 then Except.ok (out.reverse ++ cs.filterMap charToSymbol)
        else Except.error "Brainfuck code is not well-formed (Brackets do not match)" := by
  intro cs
  induction cs with
  | nil =>
    intro d e out h
    simp only [scanDepth, Option.some.injEq] at h
    rw [← h]
    rcases d with _ | d'
    · simp [parseAux]
    · simp [parseAux]
  | cons c rest ih =>
    intro d e out h
    rcases hc : charToSymbol c with _ | sym
    · simp only [scanDepth, hc] at h
      simp only [parseAux, hc, List.filterMap_cons]
      exact ih d e out h
    · cases sym
      case OpenBracket =>
        simp only [scanDepth, hc] at h
        simp only [parseAux, hc, if_true, List.filterMap_cons]
        rw [ih (d + 1) e _ h]
        rcases e with _ | e' <;> simp
      case CloseBracket =>
        simp only [scanDepth, hc] at h
        simp only [parseAux, hc, if_true, List.filterMap_cons]
        rcases d with _ | d'
        · exact nomatch h
        · rw [if_neg (Nat.succ_ne_zero d')]
          rw [Nat.add_sub_cancel]
          rw [ih d' e _ h]
          rcases e with _ | e' <;> simp
      all_goals
        simp only [scanDepth, hc] at h
        simp only [parseAux, hc, List.filterMap_cons]
        rw [ih d e _ h]
        rcases e with _ | e' <;> simp

/-- C8: with verification enabled the tokenizer returns the error
"missing open bracket" exactly when some close character occurs at zero
open depth, returns the "not well-formed" error exactly when no such
premature close occurs but nonzero depth remains at end of input, and on
balanced input returns the instruction symbols in source order with all
non-instruction characters discarded; with verification disabled it never
errors and returns the same symbol sequence. -/
theorem C8_parse_characterisation :
    ∀ cs : List Char,
      (parse cs true = Except.error "missing open bracket" ↔ scanDepth 0 cs = none)
      ∧ (parse cs true
            = Except.error "Brainfuck code is not well-formed (Brackets do not match)"
          ↔ ∃ e, scanDepth 0 cs = some (e + 1))
      ∧ (scanDepth 0 cs = some 0 → parse cs true = Except.ok (cs.filterMap charToSymbol))
      ∧ parse cs false = Except.ok (cs.filterMap charToSymbol) := by
  intro cs
  refine ⟨⟨?_, ?_⟩, ⟨?_, ?_⟩, ?_, ?_⟩
  · intro h
    rcases hs : scanDepth 0 cs with _ | e
    · rfl
    · rw [parse, parseAux_true_some cs 0 e [] hs] at h
      rcases e with _ | e'
      · exact nomatch h
      · rw [if_neg (Nat.succ_ne_zero e')] at h
        injection h with h2
        exact absurd h2 (by decide)
  · intro h
    exact parseAux_true_none cs 0 [] h
  · intro h
    rcases hs : scanDepth 0 cs with _ | e
    · rw [parse, parseAux_true_none cs 0 [] hs] at h
      injection h with h2
      exact absurd h2 (by decide)
    · rcases e with _ | e'
      · rw [parse, parseAux_true_some cs 0 0 [] hs, if_pos rfl] at h
        exact nomatch h
      · exact ⟨e', rfl⟩
  · rintro ⟨e, hs⟩
    rw [parse, parseAux_true_some cs 0 (e + 1) [] hs, if_neg (Nat.succ_ne_zero e)]
  · intro hs
    rw [parse, parseAux_true_some cs 0 0 [] hs, if_pos rfl]
    simp
  · rw [parse, parseAux_false_eq cs []]
    simp

/-- Witness for C8: on the balanced source text `a[+]` verification
succeeds and yields the three instruction symbols with the comment
character dropped. -/
theorem C8_parse_characterisation_witness :
    parse ['a', '[', '+', ']'] true
      = Except.ok [BfSymbol.OpenBracket, BfSymbol.Plus, BfSymbol.CloseBracket] :=
  (C8_parse_characterisation ['a', '[', '+', ']']).2.2.1 (by decide)

/-! ## Claim C7 (behaviour on unbalanced input) -/

/-- The optimiser's fold splits over list append. -/
theorem runOpt_append (xs ys : List BfSymbol) (st : OptSt) :
    runOpt (xs ++ ys) st = runOpt ys (runOpt xs st) :=
  List.foldl_append step st xs ys

/-- Unfolding one symbol of the optimiser's fold. -/
theorem runOpt_cons (sym : BfSymbol) (xs : List BfSymbol) (st : OptSt) :
    runOpt (sym :: xs) st = runOpt xs (step st sym) := rfl

/-- Processing a balanced segment neither reads nor changes the part of
the scope stack below the segment's own frames, and ends with those
frames all popped. -/
theorem runOpt_balanced :
    ∀ (ys : List BfSymbol) (d : Nat) (s : List Stmt) (stk extra : List (List Stmt)),
      stk.length = d → balancedFrom d ys = true →
      runOpt ys (s, stk ++ extra) = ((runOpt ys (s, stk)).1, extra) := by
  intro ys
  induction ys with
  | nil =>
    intro d s stk extra hl hb
    have hd : d = 0 := by simpa [balancedFrom] using hb
    subst hd
    have hstk : stk = [] := List.length_eq_zero.mp hl
    subst hstk
    rfl
  | cons sym rest ih =>
    intro d s stk extra hl hb
    cases sym
    case OpenBracket =>
      exact ih (d + 1) [] (s :: stk) extra (by simp [hl]) hb
    case CloseBracket =>
      rcases d with _ | d'
      · exact nomatch hb
      · rcases stk with _ | ⟨x, stk₂⟩
        · exact nomatch hl
        · exact ih d' (classify s.reverse :: x) stk₂ extra (by simpa using hl) hb
    all_goals exact ih d _ stk extra hl hb

/-- The scope-stack height after a run is the `dangling` count of the
processed symbols. -/
theorem runOpt_stack_length :
    ∀ (xs : List BfSymbol) (s : List Stmt) (stk : List (List Stmt)),
      (runOpt xs (s, stk)).2.length = dangling stk.length xs := by
  intro xs
  induction xs with
  | nil => intro s stk; rfl
  | cons sym rest ih =>
    intro s stk
    cases sym
    case OpenBracket => exact ih [] (s :: stk)
    case CloseBracket =>
      rcases stk with _ | ⟨x, stk₂⟩
      · exact ih s []
      · exact ih (classify s.reverse :: x) stk₂
    all_goals exact ih _ stk

/-- C7 (amended): a `LoopClose` with no pending open scope is dropped,
leaving the state exactly as it was — so whenever the prefix leaves no
open scope, deleting such a close does not change the result; and when
the input ends in a still-open `LoopOpen` followed by a balanced tail,
the returned `Program` is the optimisation of that trailing unclosed body
alone — the statements accumulated *before* the unmatched open are the
ones discarded. -/
theorem C7_unbalanced_behaviour :
    (∀ s : List Stmt, step (s, ([] : List (List Stmt))) BfSymbol.CloseBracket = (s, []))
    ∧ (∀ xs zs : List BfSymbol, dangling 0 xs = 0 →
        optimise_local (xs ++ BfSymbol.CloseBracket :: zs) = optimise_local (xs ++ zs))
    ∧ (∀ xs ys : List BfSymbol, balanced ys = true →
        optimise_local (xs ++ BfSymbol.OpenBracket :: ys) = optimise_local ys) := by
  refine ⟨fun s => rfl, ?_, ?_⟩
  · intro xs zs hd
    unfold optimise_local
    rw [runOpt_append, runOpt_append]
    rcases hxy : runOpt xs ([], []) with ⟨s0, stk0⟩
    have hlen : stk0.length = 0 := by
      have h2 := runOpt_stack_length xs [] []
      rw [hxy] at h2
      simpa [hd] using h2
    have hstk : stk0 = [] := List.length_eq_zero.mp hlen
    subst hstk
    rfl
  · intro xs ys hb
    unfold optimise_local
    rw [runOpt_append]
    rcases hxy : runOpt xs ([], []) with ⟨s0, stk0⟩
    rw [runOpt_cons]
    have h2 := runOpt_balanced ys 0 [] [] (s0 :: stk0) rfl hb
    simp only [List.nil_append] at h2
    show Prog.Vec ((runOpt ys ([], s0 :: stk0)).1.reverse) = _
    rw [h2]

/-- Witness for C7 at concrete inputs: `+],` optimises like `+,`, and
`+[-` optimises to the trailing body `-` alone. -/
theorem C7_unbalanced_behaviour_witness :
    dangling 0 [BfSymbol.Plus] = 0
    ∧ optimise_local [BfSymbol.Plus, BfSymbol.CloseBracket, BfSymbol.Comma]
        = optimise_local [BfSymbol.Plus, BfSymbol.Comma]
    ∧ balanced [BfSymbol.Minus] = true
    ∧ optimise_local [BfSymbol.Plus, BfSymbol.OpenBracket, BfSymbol.Minus]
        = optimise_local [BfSymbol.Minus] :=
  ⟨rfl, C7_unbalanced_behaviour.2.1 [BfSymbol.Plus] [BfSymbol.Comma] rfl, rfl,
    C7_unbalanced_behaviour.2.2 [BfSymbol.Plus] [BfSymbol.Minus] rfl⟩

/-! ## Claim C10 (no adjacent Actions invariant) -/

/-- Replacing the head by one of the same `isAction` status preserves
`chainOk`. -/
theorem chainOk_replace_head (a a' : Stmt) (rest : List Stmt)
    (h : isAction a' = isAction a) :
    chainOk (a :: rest) = true → chainOk (a' :: rest) = true := by
  cases rest with
  | nil => intro _; rfl
  | cons b r =>
    intro hcc
    simp only [chainOk] at hcc ⊢
    rw [h]
    exact hcc

/-- A `chainOk` list stays `chainOk` after dropping its head. -/
theorem chainOk_tail (a : Stmt) (rest : List Stmt) :
    chainOk (a :: rest) = true → chainOk rest = true := by
  cases rest with
  | nil => intro _; rfl
  | cons b r =>
    intro hcc
    simp only [chainOk, Bool.and_eq_true] at hcc
    exact hcc.2

/-- The six coalescing arms preserve the adjacency and nesting
invariants of the current list. -/
theorem stepS_inv (sym : BfSymbol) (s : List Stmt)
    (hc : chainOk s = true) (hn : nestedOk s = true) :
    chainOk (stepS sym s) = true ∧ nestedOk (stepS sym s) = true := by
  cases sym
  case OpenBracket => exact ⟨hc, hn⟩
  case CloseBracket => exact ⟨hc, hn⟩
  case Plus =>
    rcases s with _ | ⟨a, rest⟩
    · exact ⟨rfl, show nestedOk [Stmt.Action 0 [(0, 1)]] = true by simp only [nestedOk]⟩
    · cases a
      case Action o c =>
        exact ⟨chainOk_replace_head (Stmt.Action o c) _ rest rfl hc,
          by simpa only [stepS, nestedOk] using hn⟩
      all_goals exact ⟨hc, by simpa only [stepS, nestedOk] using hn⟩
  case Minus =>
    rcases s with _ | ⟨a, rest⟩
    · exact ⟨rfl, show nestedOk [Stmt.Action 0 [(0, -1)]] = true by simp only [nestedOk]⟩
    · cases a
      case Action o c =>
        exact ⟨chainOk_replace_head (Stmt.Action o c) _ rest rfl hc,
          by simpa only [stepS, nestedOk] using hn⟩
      all_goals exact ⟨hc, by simpa only [stepS, nestedOk] using hn⟩
  case Right =>
    rcases s with _ | ⟨a, rest⟩
    · exact ⟨rfl, show nestedOk [Stmt.Action 1 []] = true by simp only [nestedOk]⟩
    · cases a
      case Action o c =>
        exact ⟨chainOk_replace_head (Stmt.Action o c) _ rest rfl hc,
          by simpa only [stepS, nestedOk] using hn⟩
      all_goals exact ⟨hc, by simpa only [stepS, nestedOk] using hn⟩
  case Left =>
    rcases s with _ | ⟨a, rest⟩
    · exact ⟨rfl, show nestedOk [Stmt.Action (-1) []] = true by simp only [nestedOk]⟩
    · cases a
      case Action o c =>
        exact ⟨chainOk_replace_head (Stmt.Action o c) _ rest rfl hc,
          by simpa only [stepS, nestedOk] using hn⟩
      all_goals exact ⟨hc, by simpa only [stepS, nestedOk] using hn⟩
  case Period =>
    rcases s with _ | ⟨a, rest⟩
    · exact ⟨rfl, show nestedOk [Stmt.Output 1] = true by simp only [nestedOk]⟩
    · cases a
      case Output n =>
        exact ⟨chainOk_replace_head (Stmt.Output n) _ rest rfl hc,
          by simpa only [stepS, nestedOk] using hn⟩
      all_goals exact ⟨hc, by simpa only [stepS, nestedOk] using hn⟩
  case Comma =>
    rcases s with _ | ⟨a, rest⟩
    · exact ⟨rfl, show nestedOk [Stmt.Input 1] = true by simp only [nestedOk]⟩
    · cases a
      case Input n =>
        exact ⟨chainOk_replace_head (Stmt.Input n) _ rest rfl hc,
          by simpa only [stepS, nestedOk] using hn⟩
      all_goals exact ⟨hc, by simpa only [stepS, nestedOk] using hn⟩

/-- The multiplication-loop attempt yields either the unchanged generic
loop or a multiplication loop. -/
theorem multFold_cases (body : List Stmt) :
    multFold body = Stmt.Loop body
    ∨ ∃ dec t, multFold body = Stmt.MultiplicationLoop dec t := by
  unfold multFold
  split
  · left; rfl
  · split
    · left; rfl
    · split
      · right; exact ⟨_, _, rfl⟩
      · left; rfl

/-- Classification is the multiplication attempt unless it is a scan
loop. -/
theorem classify_eq_multFold_or_scan (body : List Stmt) :
    classify body = multFold body ∨ ∃ d, classify body = Stmt.ScanLoop d := by
  rcases body with _ | ⟨a, rest⟩
  · left; simp only [classify]
  · rcases rest with _ | ⟨b, rest2⟩
    · rcases a with ⟨off, ch⟩ | n | n | lb | _ | dd | ⟨dd, tt⟩
      · rcases ch with _ | ⟨kv, ch2⟩
        · by_cases hd : off = 1 ∨ off = -1
          · right
            refine ⟨off, ?_⟩
            simp only [classify]
            rw [if_pos hd]
          · left
            simp only [classify]
            rw [if_neg hd]
        · left; simp only [classify]
      · left; simp only [classify]
      · left; simp only [classify]
      · left; simp only [classify]
      · left; simp only [classify]
      · left; simp only [classify]
      · left; simp only [classify]
    · left; simp only [classify]

/-- The three shapes a classified loop can take. -/
theorem classify_cases (body : List Stmt) :
    classify body = Stmt.Loop body
    ∨ (∃ d, classify body = Stmt.ScanLoop d)
    ∨ ∃ dec t, classify body = Stmt.MultiplicationLoop dec t := by
  rcases classify_eq_multFold_or_scan body with h | ⟨d, h⟩
  · rcases multFold_cases body with h2 | ⟨dec, t, h2⟩
    · left; rw [h, h2]
    · right; right; exact ⟨dec, t, by rw [h, h2]⟩
  · right; left; exact ⟨d, h⟩

/-- Prepending a non-`Action` statement keeps the chain valid. -/
theorem chainOk_cons_nonaction (a : Stmt) (x : List Stmt)
    (h : isAction a = false) (hx : chainOk x = true) :
    chainOk (a :: x) = true := by
  cases x with
  | nil => rfl
  | cons y ys => simp [chainOk, h, hx]

/-- Pushing a classified loop statement preserves both invariants. -/
theorem push_classified (body x : List Stmt)
    (hcb : chainOk body = true) (hnb : nestedOk body = true)
    (hcx : chainOk x = true) (hnx : nestedOk x = true) :
    chainOk (classify body :: x) = true ∧ nestedOk (classify body :: x) = true := by
  rcases classify_cases body with h | ⟨d, h⟩ | ⟨dec, t, h⟩ <;> rw [h]
  · refine ⟨chainOk_cons_nonaction _ x rfl hcx, ?_⟩
    simp only [nestedOk]
    simp [hcb, hnb, hnx]
  · exact ⟨chainOk_cons_nonaction _ x rfl hcx, by simpa only [nestedOk] using hnx⟩
  · exact ⟨chainOk_cons_nonaction _ x rfl hcx, by simpa only [nestedOk] using hnx⟩

/-- `chainOk` as a `Chain'` statement. -/
theorem chainOk_iff_chain (l : List Stmt) :
    chainOk l = true ↔ l.Chain' (fun a b => (!(isAction a && isAction b)) = true) := by
  induction l with
  | nil => simp [chainOk]
  | cons a rest ih =>
    cases rest with
    | nil => simp [chainOk]
    | cons b rest2 =>
      simp only [chainOk, Bool.and_eq_true, List.chain'_cons, ih]

/-- Reversing a list does not create adjacent `Action`s. -/
theorem chainOk_reverse (l : List Stmt) : chainOk l.reverse = chainOk l := by
  rw [Bool.eq_iff_iff, chainOk_iff_chain, chainOk_iff_chain, List.chain'_reverse]
  constructor
  · intro h
    refine h.imp ?_
    intro a b hr
    have hr' : (!(isAction b && isAction a)) = true := hr
    rw [Bool.and_comm]
    exact hr'
  · intro h
    refine h.imp ?_
    intro a b hr
    show (!(isAction b && isAction a)) = true
    rw [Bool.and_comm]
    exact hr

/-- `nestedOk` distributes over append. -/
theorem nestedOk_append (l1 l2 : List Stmt) :
    nestedOk (l1 ++ l2) = (nestedOk l1 && nestedOk l2) := by
  induction l1 with
  | nil => simp [nestedOk]
  | cons a rest ih =>
    cases a <;> (simp only [List.cons_append, nestedOk, ih]; try simp [Bool.and_assoc])

/-- Reversing a list does not change which loop bodies it contains. -/
theorem nestedOk_reverse (l : List Stmt) : nestedOk l.reverse = nestedOk l := by
  induction l with
  | nil => rfl
  | cons a rest ih =>
    rw [List.reverse_cons, nestedOk_append, ih]
    cases a <;> simp only [nestedOk] <;>
      simp [Bool.and_comm, Bool.and_left_comm, Bool.and_assoc]

/-- One optimiser step preserves the state invariant. -/
theorem step_inv (sym : BfSymbol) (st : OptSt) (h : OptInv st) :
    OptInv (step st sym) := by
  obtain ⟨⟨hc, hn⟩, hstk⟩ := h
  rcases st with ⟨s, stk⟩
  cases sym
  case OpenBracket =>
    refine ⟨⟨rfl, show nestedOk ([] : List Stmt) = true by simp only [nestedOk]⟩, ?_⟩
    intro l hl
    rcases List.mem_cons.mp hl with rfl | hl'
    · exact ⟨hc, hn⟩
    · exact hstk l hl'
  case CloseBracket =>
    rcases stk with _ | ⟨x, stk₂⟩
    · exact ⟨⟨hc, hn⟩, hstk⟩
    · obtain ⟨hcx, hnx⟩ := hstk x (List.mem_cons_self x stk₂)
      have hcrev : chainOk s.reverse = true := by rw [chainOk_reverse]; exact hc
      have hnrev : nestedOk s.reverse = true := by rw [nestedOk_reverse]; exact hn
      obtain ⟨h1, h2⟩ := push_classified s.reverse x hcrev hnrev hcx hnx
      exact ⟨⟨h1, h2⟩, fun l hl => hstk l (List.mem_cons_of_mem _ hl)⟩
  all_goals exact ⟨stepS_inv _ s hc hn, hstk⟩

/-- The invariant holds after any run of the optimiser. -/
theorem runOpt_inv :
    ∀ (xs : List BfSymbol) (st : OptSt), OptInv st → OptInv (runOpt xs st) := by
  intro xs
  induction xs with
  | nil => intro st h; exact h
  | cons sym rest ih => intro st h; exact ih _ (step_inv sym st h)

/-- A body accepted by the multiplication fold, when it has no adjacent
`Action`s, is exactly one `Action`. -/
theorem multFold_mult_shape (body : List Stmt) (hc : chainOk body = true)
    (dec : Nat) (t : List (Int × Int))
    (hm : multFold body = Stmt.MultiplicationLoop dec t) :
    ∃ o c, body = [Stmt.Action o c] := by
  unfold multFold at hm
  split at hm
  · exact nomatch hm
  · rename_i off ch hf
    split at hm
    · exact nomatch hm
    · rename_i v hg
      have hAll := allActions_of_foldBodyAux_some body (0, []) (off, ch) hf
      rcases body with _ | ⟨a, rest⟩
      · simp only [foldBody, foldBodyAux, Option.some.injEq, Prod.mk.injEq] at hf
        rw [← hf.2] at hg
        exact nomatch hg
      · rcases rest with _ | ⟨b, rest2⟩
        · have ha := hAll a (List.mem_cons_self a [])
          cases a with
          | Action o c => exact ⟨o, c, rfl⟩
          | Output n => exact absurd ha (by simp [isAction])
          | Input n => exact absurd ha (by simp [isAction])
          | Loop lb => exact absurd ha (by simp [isAction])
          | ZeroLoop => exact absurd ha (by simp [isAction])
          | ScanLoop d => exact absurd ha (by simp [isAction])
          | MultiplicationLoop d2 t2 => exact absurd ha (by simp [isAction])
        · have ha := hAll a (by simp)
          have hb := hAll b (by simp)
          simp only [chainOk, ha, hb, Bool.and_self, Bool.not_true, Bool.false_and] at hc
          exact nomatch hc

/-- C10: in the `Program` returned by `optimise_local` no statement list
— the top level or any `Loop` body, recursively — contains two adjacent
`Action` statements; consequently a loop body accepted by the
multiplication-loop fold is exactly one `Action` statement, and the
empty body is classified as a generic `Loop`. -/
theorem C10_no_adjacent_actions :
    (∀ prog : List BfSymbol, noAdjP (optimise_local prog) = true)
    ∧ (∀ (body : List Stmt) (dec : Nat) (t : List (Int × Int)), chainOk body = true →
        multFold body = Stmt.MultiplicationLoop dec t → ∃ o c, body = [Stmt.Action o c])
    ∧ classify [] = Stmt.Loop [] := by
  refine ⟨?_, fun body dec t hc hm => multFold_mult_shape body hc dec t hm, rfl⟩
  intro prog
  obtain ⟨⟨hc, hn⟩, _⟩ :=
    runOpt_inv prog ([], [])
      ⟨⟨rfl, show nestedOk ([] : List Stmt) = true by simp only [nestedOk]⟩,
        fun l hl => absurd hl (List.not_mem_nil l)⟩
  unfold optimise_local
  simp only [noAdjP]
  rw [chainOk_reverse, nestedOk_reverse]
  simp [hc, hn]

/-- Witness for C10: the body of `[-]` is chain-valid, accepted by the
fold, and indeed a single `Action`. -/
theorem C10_no_adjacent_actions_witness :
    chainOk [Stmt.Action 0 [(0, -1)]] = true
    ∧ multFold [Stmt.Action 0 [(0, -1)]] = Stmt.MultiplicationLoop 1 []
    ∧ ∃ o c, [Stmt.Action 0 [(0, -1)]] = [Stmt.Action o c] :=
  ⟨rfl, rfl, C10_no_adjacent_actions.2.1 [Stmt.Action 0 [(0, -1)]] 1 [] rfl rfl⟩

/-! ## Claim C5 (zero-delta removal) -/

/-- `Pairwise` unfolding of sortedness at a cons. -/
theorem sortedC_cons_iff (a : Int × Int) (l : Changes) :
    SortedC (a :: l) ↔ (∀ y ∈ l, a.1 < y.1) ∧ SortedC l :=
  List.pairwise_cons

/-- Looking up the key just written. -/
theorem getC_setC_self : ∀ (c : Changes) (k v : Int), getC (setC c k v) k = some v
  | [], k, v => by simp [setC, getC]
  | (k', v') :: rest, k, v => by
    simp only [setC]
    split_ifs with h1 h2
    · simp [getC]
    · simp [getC]
    · have hne : ¬k = k' := h2
      simp only [getC, if_neg hne]
      exact getC_setC_self rest k v

/-- Entries after an insert come from the old map or are the new pair. -/
theorem mem_setC : ∀ (c : Changes) (k v : Int) (kv : Int × Int),
    kv ∈ setC c k v → kv ∈ c ∨ kv = (k, v)
  | [], k, v, kv => by
    intro h
    simp [setC] at h
    right
    exact h
  | (k', v') :: rest, k, v, kv => by
    intro h
    simp only [setC] at h
    split_ifs at h with h1 h2
    · rcases List.mem_cons.mp h with rfl | h'
      · right; rfl
      · left; exact h'
    · rcases List.mem_cons.mp h with rfl | h'
      · right; rfl
      · left; exact List.mem_cons_of_mem _ h'
    · rcases List.mem_cons.mp h with rfl | h'
      · left; exact List.mem_cons_self _ _
      · rcases mem_setC rest k v kv h' with h'' | h''
        · left; exact List.mem_cons_of_mem _ h''
        · right; exact h''

/-- Removing a key keeps a sublist of the map. -/
theorem eraseC_sublist : ∀ (c : Changes) (k : Int), (eraseC c k).Sublist c
  | [], _ => List.Sublist.refl []
  | (k', v') :: rest, k => by
    simp only [eraseC]
    split_ifs with h1
    · exact List.sublist_cons_self _ _
    · exact List.Sublist.cons₂ _ (eraseC_sublist rest k)

/-- Entries survive an erase only if they were present. -/
theorem mem_eraseC (c : Changes) (k : Int) {kv : Int × Int} (h : kv ∈ eraseC c k) :
    kv ∈ c :=
  (eraseC_sublist c k).subset h

/-- Inserting preserves sortedness. -/
theorem sortedC_setC : ∀ (c : Changes) (k v : Int), SortedC c → SortedC (setC c k v)
  | [], k, v, _ => by simp [setC, SortedC]
  | (k', v') :: rest, k, v, hs => by
    rw [sortedC_cons_iff] at hs
    obtain ⟨hhead, htail⟩ := hs
    simp only [setC]
    split_ifs with h1 h2
    · rw [sortedC_cons_iff]
      constructor
      · intro y hy
        rcases List.mem_cons.mp hy with rfl | hy'
        · exact h1
        · exact lt_trans h1 (hhead y hy')
      · rw [sortedC_cons_iff]
        exact ⟨hhead, htail⟩
    · rw [sortedC_cons_iff]
      refine ⟨fun y hy => ?_, htail⟩
      rw [h2]
      exact hhead y hy
    · rw [sortedC_cons_iff]
      constructor
      · intro y hy
        rcases mem_setC rest k v y hy with h' | h'
        · exact hhead y h'
        · rw [h']
          rcases lt_trichotomy k k' with hlt | heq | hgt
        
          · exact absurd hlt h1
          · exact absurd heq h2
          · exact hgt
      · exact sortedC_setC rest k v htail

/-- Erasing an absent key is the identity. -/
theorem eraseC_eq_of_forall_ne :
    ∀ (c : Changes) (k : Int), (∀ kv ∈ c, kv.1 ≠ k) → eraseC c k = c
  | [], _, _ => rfl
  | (k', v') :: rest, k, h => by
    have hne : ¬k = k' :=
      fun he => (h (k', v') (List.mem_cons_self _ _)) he.symm
    simp only [eraseC, if_neg hne]
    rw [eraseC_eq_of_forall_ne rest k (fun kv hkv => h kv (List.mem_cons_of_mem _ hkv))]

/-- On a sorted map, erasing the freshly written key undoes the write. -/
theorem eraseC_setC :
    ∀ (c : Changes) (k v : Int), SortedC c → eraseC (setC c k v) k = eraseC c k
  | [], k, v, _ => by simp [setC, eraseC]
  | (k', v') :: rest, k, v, hs => by
    rw [sortedC_cons_iff] at hs
    obtain ⟨hhead, htail⟩ := hs
    simp only [setC]
    split_ifs with h1 h2
    · have hne : ¬k = k' := ne_of_lt h1
      simp only [eraseC, if_pos rfl, if_neg hne, if_true]
      rw [eraseC_eq_of_forall_ne rest k
        (fun kv hkv => ne_of_gt (lt_trans h1 (hhead kv hkv)))]
    · rw [h2]
      simp [eraseC]
    · simp only [eraseC, if_neg h2]
      rw [eraseC_setC rest k v htail]

/-- The insert-then-drop-if-zero step of the `Plus`/`Minus` arms
preserves well-formedness of the changes map. -/
theorem GoodC_update (c : Changes) (off v : Int) (hg : GoodC c) :
    GoodC (if getC (setC c off v) off = some 0 then eraseC (setC c off v) off
           else setC c off v) := by
  obtain ⟨hs, hz⟩ := hg
  rw [getC_setC_self]
  by_cases hv : v = 0
  · subst hv
    rw [if_pos rfl, eraseC_setC c off 0 hs]
    exact ⟨List.Pairwise.sublist (eraseC_sublist c off) hs,
      fun kv hkv => hz kv (mem_eraseC c off hkv)⟩
  · rw [if_neg (by simpa using hv)]
    refine ⟨sortedC_setC c off v hs, ?_⟩
    intro kv hkv
    rcases mem_setC c off v kv hkv with h' | h'
    · exact hz kv h'
    · rw [h']
      exact hv

/-- A fresh one-entry changes map is well formed. -/
theorem GoodC_single (k v : Int) (hv : v ≠ 0) : GoodC [(k, v)] := by
  refine ⟨List.pairwise_singleton _ _, ?_⟩
  intro kv hkv
  rcases List.mem_cons.mp hkv with rfl | h'
  · exact hv
  · exact absurd h' (List.not_mem_nil kv)

/-- The empty changes map is well formed. -/
theorem GoodC_nil : GoodC [] :=
  ⟨List.Pairwise.nil, fun kv hkv => absurd hkv (List.not_mem_nil kv)⟩

/-- `GoodL` holds of the empty list. -/
theorem GoodL_nil : GoodL [] := by
  simp only [GoodL]

/-- `GoodL` unfolding at a cons. -/
theorem GoodL_cons_iff (a : Stmt) (rest : List Stmt) :
    GoodL (a :: rest) ↔
      (match a with
       | Stmt.Action _ c => GoodC c
       | Stmt.Loop body => GoodL body
       | _ => True) ∧ GoodL rest := by
  cases a <;> simp only [GoodL]

/-- The six coalescing arms keep every `Action`'s changes map well
formed. -/
theorem stepS_good (sym : BfSymbol) (s : List Stmt) (h : GoodL s) :
    GoodL (stepS sym s) := by
  cases sym
  case OpenBracket => exact h
  case CloseBracket => exact h
  case Plus =>
    rcases s with _ | ⟨a, rest⟩
    · exact (GoodL_cons_iff _ _).mpr ⟨GoodC_single 0 1 one_ne_zero, GoodL_nil⟩
    · rw [GoodL_cons_iff] at h
      cases a
      case Action o c =>
        obtain ⟨hgc, hrest⟩ := h
        cases hgo : getC c o with
        | some n =>
          have hstep : stepS BfSymbol.Plus (Stmt.Action o c :: rest)
              = Stmt.Action o (if getC (setC c o (n + 1)) o = some 0
                  then eraseC (setC c o (n + 1)) o else setC c o (n + 1)) :: rest := by
            simp only [stepS, hgo]
          rw [hstep, GoodL_cons_iff]
          exact ⟨GoodC_update c o (n + 1) hgc, hrest⟩
        | none =>
          have hstep : stepS BfSymbol.Plus (Stmt.Action o c :: rest)
              = Stmt.Action o (if getC (setC c o 1) o = some 0
                  then eraseC (setC c o 1) o else setC c o 1) :: rest := by
            simp only [stepS, hgo]
          rw [hstep, GoodL_cons_iff]
          exact ⟨GoodC_update c o 1 hgc, hrest⟩
      all_goals exact (GoodL_cons_iff _ _).mpr ⟨GoodC_single 0 1 one_ne_zero,
        (GoodL_cons_iff _ _).mpr h⟩
  case Minus =>
    rcases s with _ | ⟨a, rest⟩
    · exact (GoodL_cons_iff _ _).mpr ⟨GoodC_single 0 (-1) (by decide), GoodL_nil⟩
    · rw [GoodL_cons_iff] at h
      cases a
      case Action o c =>
        obtain ⟨hgc, hrest⟩ := h
        cases hgo : getC c o with
        | some n =>
          have hstep : stepS BfSymbol.Minus (Stmt.Action o c :: rest)
              = Stmt.Action o (if getC (setC c o (n - 1)) o = some 0
                  then eraseC (setC c o (n - 1)) o else setC c o (n - 1)) :: rest := by
            simp only [stepS, hgo]
          rw [hstep, GoodL_cons_iff]
          exact ⟨GoodC_update c o (n - 1) hgc, hrest⟩
        | none =>
          have hstep : stepS BfSymbol.Minus (Stmt.Action o c :: rest)
              = Stmt.Action o (if getC c o = some 0 then eraseC c o else c) :: rest := by
            simp only [stepS, hgo]
          rw [hstep, GoodL_cons_iff]
          refine ⟨?_, hrest⟩
          rw [hgo, if_neg (by simp)]
          exact hgc
      all_goals exact (GoodL_cons_iff _ _).mpr ⟨GoodC_single 0 (-1) (by decide),
        (GoodL_cons_iff _ _).mpr h⟩
  case Right =>
    rcases s with _ | ⟨a, rest⟩
    · exact (GoodL_cons_iff _ _).mpr ⟨GoodC_nil, GoodL_nil⟩
    · rw [GoodL_cons_iff] at h
      cases a
      case Action o c => exact (GoodL_cons_iff _ _).mpr h
      all_goals exact (GoodL_cons_iff _ _).mpr ⟨GoodC_nil, (GoodL_cons_iff _ _).mpr h⟩
  case Left =>
    rcases s with _ | ⟨a, rest⟩
    · exact (GoodL_cons_iff _ _).mpr ⟨GoodC_nil, GoodL_nil⟩
    · rw [GoodL_cons_iff] at h
      cases a
      case Action o c => exact (GoodL_cons_iff _ _).mpr h
      all_goals exact (GoodL_cons_iff _ _).mpr ⟨GoodC_nil, (GoodL_cons_iff _ _).mpr h⟩
  case Period =>
    rcases s with _ | ⟨a, rest⟩
    · exact (GoodL_cons_iff _ _).mpr ⟨trivial, GoodL_nil⟩
    · rw [GoodL_cons_iff] at h
      cases a
      case Output n => exact (GoodL_cons_iff _ _).mpr h
      all_goals exact (GoodL_cons_iff _ _).mpr ⟨trivial, (GoodL_cons_iff _ _).mpr h⟩
  case Comma =>
    rcases s with _ | ⟨a, rest⟩
    · exact (GoodL_cons_iff _ _).mpr ⟨trivial, GoodL_nil⟩
    · rw [GoodL_cons_iff] at h
      cases a
      case Input n => exact (GoodL_cons_iff _ _).mpr h
      all_goals exact (GoodL_cons_iff _ _).mpr ⟨trivial, (GoodL_cons_iff _ _).mpr h⟩

/-- `GoodL` is elementwise, so it splits over append. -/
theorem GoodL_append : ∀ l1 l2 : List Stmt, GoodL (l1 ++ l2) ↔ GoodL l1 ∧ GoodL l2
  | [], l2 => by
    simp only [List.nil_append]
    exact ⟨fun h => ⟨GoodL_nil, h⟩, fun h => h.2⟩
  | a :: rest, l2 => by
    rw [List.cons_append, GoodL_cons_iff, GoodL_cons_iff, GoodL_append rest l2, and_assoc]

/-- `GoodL` is invariant under reversal. -/
theorem GoodL_reverse : ∀ l : List Stmt, GoodL l.reverse ↔ GoodL l
  | [] => Iff.rfl
  | a :: rest => by
    rw [List.reverse_cons, GoodL_append, GoodL_reverse rest, GoodL_cons_iff,
      GoodL_cons_iff, and_comm]
    simp [GoodL_nil]

/-- Pushing a classified loop keeps `GoodL`. -/
theorem GoodL_push_classified (body x : List Stmt) (hb : GoodL body) (hx : GoodL x) :
    GoodL (classify body :: x) := by
  rcases classify_cases body with h | ⟨d, h⟩ | ⟨dec, t, h⟩ <;> rw [h, GoodL_cons_iff]
  · exact ⟨hb, hx⟩
  · exact ⟨trivial, hx⟩
  · exact ⟨trivial, hx⟩

/-- One optimiser step preserves the C5 invariant. -/
theorem step_good (sym : BfSymbol) (st : OptSt) (h : GoodInv st) :
    GoodInv (step st sym) := by
  obtain ⟨hs, hstk⟩ := h
  rcases st with ⟨s, stk⟩
  cases sym
  case OpenBracket =>
    refine ⟨GoodL_nil, ?_⟩
    intro l hl
    rcases List.mem_cons.mp hl with rfl | hl'
    · exact hs
    · exact hstk l hl'
  case CloseBracket =>
    rcases stk with _ | ⟨x, stk₂⟩
    · exact ⟨hs, hstk⟩
    · refine ⟨GoodL_push_classified s.reverse x ((GoodL_reverse s).mpr hs)
        (hstk x (List.mem_cons_self x stk₂)), ?_⟩
      exact fun l hl => hstk l (List.mem_cons_of_mem _ hl)
  all_goals exact ⟨stepS_good _ s hs, hstk⟩

/-- The C5 invariant holds after any run of the optimiser. -/
theorem runOpt_good :
    ∀ (xs : List BfSymbol) (st : OptSt), GoodInv st → GoodInv (runOpt xs st) := by
  intro xs
  induction xs with
  | nil => intro st h; exact h
  | cons sym rest ih => intro st h; exact ih _ (step_good sym st h)

/-- A `GoodL` tree has no zero-valued changes entry anywhere. -/
theorem zeroFreeL_of_GoodL : ∀ l : List Stmt, GoodL l → zeroFreeL l = true
  | [] => fun _ => by simp only [zeroFreeL]
  | a :: rest => fun h => by
    rw [GoodL_cons_iff] at h
    obtain ⟨ha, hrest⟩ := h
    have htail := zeroFreeL_of_GoodL rest hrest
    cases a with
    | Action o c =>
      simp only [zeroFreeL, htail, Bool.and_true]
      rw [List.all_eq_true]
      intro kv hkv
      simpa using ha.2 kv hkv
    | Loop body =>
      simp only [zeroFreeL, htail, Bool.and_true]
      exact zeroFreeL_of_GoodL body ha
    | Output n => simpa only [zeroFreeL, Bool.true_and] using htail
    | Input n => simpa only [zeroFreeL, Bool.true_and] using htail
    | ZeroLoop => simpa only [zeroFreeL, Bool.true_and] using htail
    | ScanLoop d => simpa only [zeroFreeL, Bool.true_and] using htail
    | MultiplicationLoop dec t => simpa only [zeroFreeL, Bool.true_and] using htail

/-- C5 (amended): no `Action` in the output of `optimise_local` — at the
top level or inside any loop body — carries a zero-valued changes entry
(entries returning to 0 are removed eagerly); but an `Action` whose whole
run nets to offset 0 with empty changes is *not* removed: `-+` yields the
no-op statement `Action(0, {})`. -/
theorem C5_zero_delta_removal :
    (∀ prog : List BfSymbol, zeroFreeP (optimise_local prog) = true)
    ∧ optimise_local [BfSymbol.Minus, BfSymbol.Plus] = Prog.Vec [Stmt.Action 0 []] := by
  refine ⟨?_, rfl⟩
  intro prog
  obtain ⟨hs, _⟩ :=
    runOpt_good prog ([], [])
      ⟨GoodL_nil, fun l hl => absurd hl (List.not_mem_nil l)⟩
  unfold optimise_local
  simp only [zeroFreeP]
  exact zeroFreeL_of_GoodL _ ((GoodL_reverse _).mpr hs)

section PipelineTests
/-! Sanity checks mirroring the repository's tokenizer and emitter unit
tests (src/bf2c/mod.rs `mod tests`). -/

open BfSymbol

example : parse [] false = Except.ok [] := rfl

example : parse ['<', '>', '+', '-', '.', ',', '[', ']'] false
    = Except.ok [Left, Right, Plus, Minus, Period, Comma, OpenBracket, CloseBracket] := rfl

example : parse ['a', 'b', 'c', 'd', 'e', 'f', 'g', '[', ']'] false
    = Except.ok [OpenBracket, CloseBracket] := rfl

example : parse [']'] true = Except.error "missing open bracket" := rfl

example : parse ['['] true
    = Except.error "Brainfuck code is not well-formed (Brackets do not match)" := rfl

example : emit []
    = "#include <stdio.h>\nint main() \x7b\n   char tape[200000];\n   for (int i = 0; i < 200000; i++) tape[i] = 0;\n   char *ptr = tape;\n   return 0;\n\x7d\n" := rfl

example : emit_without_boilerplate
      [OpenBracket, OpenBracket, Plus, CloseBracket, Minus, CloseBracket]
    = "    while (*ptr) \x7b\n        while (*ptr) \x7b\n            (*ptr)++;\n        \x7d\n        (*ptr)--;\n    \x7d\n" := rfl

end PipelineTests
